import Mathlib

/-!
Verification of the alarm-to-failure-period correlation engine.

The development embeds the two pipeline variants of the repository:

* Variant A (`Alarm_algo.py`): an exact left join of alarm events onto the
  trend stream, an `alarm_flag` computed by forward-filling the last alarm
  timestamp over the time-sorted merged frame, and a single-state
  `failure_period` loop over the (asset, time)-sorted frame.

* Variant B (`alarm.py`): `mark_failure_period` runs per asset with a
  look-ahead opening condition and a dwell-based closing condition built
  from a cumulative-sum run grouping (`run2` / `first2` / `since2`), and
  `compute_summary` reduces the labeled stream to transition counts and a
  first-episode duration.

Timestamps are modelled as integer seconds, valve positions and alarm kinds
as integers (HiHi mapped to 1, LoLo to -1, none to 0), matching the numeric
encodings the scripts use.
-/

/-- A row of the Variant A merged frame (`Alarm_algo.py`): asset id,
timestamp in seconds, whether the exact join attached a non-empty alarm
annotation to this row, and the valve position. -/
structure RowM where
  asset : Int
  t : Int
  hasAlarm : Bool
  valve : Int
deriving DecidableEq, Repr, Inhabited

/-- Forward fill of the last alarm timestamp together with the 5-second
recency flag, embedding the `alarm_time` / `alarm_flag` block of
`Alarm_algo.py`: `alarm_time` is the timestamp where an alarm annotation is
present, forward-filled; the flag is 1 when the row's timestamp is within
5 seconds of the filled value, 0 when the difference exceeds 5 seconds or
no alarm has occurred yet. -/
def alarmFlagGo : Option Int → List RowM → List Int
  | _, [] => []
  | last, r :: rest =>
    let last' := if r.hasAlarm then some r.t else last
    let flag : Int :=
      match last' with
      | some ta => if r.t - ta ≤ 5 then 1 else 0
      | none => 0
    flag :: alarmFlagGo last' rest

/-- The `alarm_flag` column of `Alarm_algo.py`, computed over the
time-sorted merged frame with no prior alarm. -/
def alarm_flag (rows : List RowM) : List Int := alarmFlagGo none rows

/-- The most recent alarm annotation at or before position `i` of the
merged frame: last element of the alarm-carrying rows among the first
`i + 1` rows. -/
def lastAlarmAt (rows : List RowM) (i : Nat) : Option Int :=
  (((rows.take (i + 1)).filter (fun r => r.hasAlarm)).getLast?).map (fun r => r.t)

/-- Option fallback used to state the forward-fill invariant. -/
def optOr (a b : Option Int) : Option Int :=
  match a with
  | some x => some x
  | none => b

/-- One step of the Variant A failure-period state machine
(`Alarm_algo.py`): from state 0 go to 1 when the alarm flag is 1 and the
valve position is 1; from state 1 go to 0 when the valve position is 2;
otherwise keep the state. -/
def stepA (st flag valve : Int) : Int :=
  if st = 0 ∧ flag = 1 ∧ valve = 1 then 1
  else if st = 1 ∧ valve = 2 then 0
  else st

/-- The Variant A `failure_period` loop: a single `in_failure` state walked
over the rows (paired with their alarm flags), writing the state after the
transition into the output column. -/
def fpGo : Int → List RowM → List Int → List Int
  | _, [], _ => []
  | _, _ :: _, [] => []
  | st, r :: rest, f :: fs =>
    let st' := stepA st f r.valve
    st' :: fpGo st' rest fs

/-- The `failure_period` column of `Alarm_algo.py`, starting from
`in_failure = 0`. -/
def failure_period (rows : List RowM) (flags : List Int) : List Int :=
  fpGo 0 rows flags

/-- Final state of the Variant A loop after consuming the given rows. -/
def fpFinal : Int → List RowM → List Int → Int
  | st, [], _ => st
  | st, _ :: _, [] => st
  | st, r :: rest, f :: fs => fpFinal (stepA st f r.valve) rest fs

/-- The composed Variant A labeling: alarm flags computed from the stream,
then the failure-period loop over the same row order (the two sort orders
of the script coincide on the streams considered here). -/
def variantA_labels (rows : List RowM) : List Int :=
  failure_period rows (alarm_flag rows)

/-- A Variant A row decorated with its alarm flag and an existing failure
label, as in the already-labeled output frame. -/
structure LabeledRowA where
  asset : Int
  t : Int
  hasAlarm : Bool
  valve : Int
  flag : Int
  label : Int
deriving DecidableEq, Repr, Inhabited

/-- Attach alarm flags and failure labels to Variant A rows. -/
def attachA : List RowM → List Int → List Int → List LabeledRowA
  | r :: rest, f :: fs, l :: ls =>
    ⟨r.asset, r.t, r.hasAlarm, r.valve, f, l⟩ :: attachA rest fs ls
  | _, _, _ => []

/-- The Variant A failure-period loop re-run on an already-labeled frame:
the transition reads only the flag and valve fields of each row. -/
def fpGoL : Int → List LabeledRowA → List Int
  | _, [] => []
  | st, r :: rest =>
    let st' := stepA st r.flag r.valve
    st' :: fpGoL st' rest

/-- A joined sample of Variant B (`alarm.py`): asset id, timestamp in
seconds, alarm kind (1 for HiHi, -1 for LoLo, 0 for none) and valve
position, as produced by `merge_alarm`. -/
structure SampleB where
  asset : Int
  t : Int
  alarm : Int
  valve : Int
deriving DecidableEq, Repr, Inhabited

/-- Cumulative count of samples with valve position different from 2 among
the first `i + 1` entries: the `(~is_v2).cumsum()` column of
`mark_failure_period`. Indices beyond the list read the default value 0. -/
def run2 (valves : List Int) : Nat → Nat
  | 0 => if valves.getD 0 0 ≠ 2 then 1 else 0
  | i + 1 => run2 valves i + (if valves.getD (i + 1) 0 ≠ 2 then 1 else 0)

/-- Timestamp of the first sample of the `run2` group of index `i`: the
`groupby(run2).transform("first")` of the timestamps. -/
def first2 (ts valves : List Int) (i : Nat) : Int :=
  match (List.range (i + 1)).find? (fun j => run2 valves j == run2 valves i) with
  | some j => ts.getD j 0
  | none => 0

/-- Seconds elapsed since the first sample of the current `run2` group, the
`since2` column of `mark_failure_period`. -/
def since2 (ts valves : List Int) (i : Nat) : Int :=
  ts.getD i 0 - first2 ts valves i

/-- Index of the most recent sample at or before `i` whose valve position
differs from 2, or 0 when all earlier samples have valve position 2. -/
def prevNon2 (valves : List Int) : Nat → Nat
  | 0 => 0
  | i + 1 => if valves.getD (i + 1) 0 ≠ 2 then i + 1 else prevNon2 valves i

/-- Start index of the maximal run of valve-position-2 samples containing
index `i` (meaningful when the sample at `i` has valve position 2). -/
def run2SpecStart (valves : List Int) : Nat → Nat
  | 0 => 0
  | i + 1 => if valves.getD i 0 = 2 then run2SpecStart valves i else i + 1

/-- Modelled from the spec: the dwell quantity the specification describes
for the Variant B close, namely the seconds elapsed since the current
valve-position-2 run began (its value at the first valve-2 sample of a run
is 0), and 0 at samples whose valve position is not 2. This definition
follows the spec's words and the spec's closing scenario; it is compared
against the `since2` the code computes. -/
def since2_spec (df : List SampleB) (i : Nat) : Int :=
  let ts := df.map (fun s => s.t)
  let valves := df.map (fun s => s.valve)
  if valves.getD i 0 = 2 then ts.getD i 0 - ts.getD (run2SpecStart valves i) 0 else 0

/-- The look-ahead opening condition of `mark_failure_period`: some sample
of the asset's own stream lies strictly after `t0`, at most 5 seconds after
it, and has valve position 1. -/
def openCond (ts valves : List Int) (t0 : Int) : Bool :=
  (List.range ts.length).any (fun j =>
    decide (t0 < ts.getD j 0) && decide (ts.getD j 0 ≤ t0 + 5) && (valves.getD j 0 == 1))

/-- The per-asset loop of `mark_failure_period` over the extracted
timestamp, alarm and valve arrays: index `i` advances with a fuel argument
equal to the number of remaining samples; in the normal state an opening
HiHi alarm with a confirming look-ahead labels the row 1 and enters the
failure state, in the failure state a valve-2 sample with `since2 ≥ 10`
leaves the failure state labeling the row 0, and every other failure-state
row is labeled 1. -/
def markBGo (ts alarms valves : List Int) : Nat → Nat → Bool → List Int
  | 0, _, _ => []
  | fuel + 1, i, false =>
    if alarms.getD i 0 = 1 ∧ openCond ts valves (ts.getD i 0) then
      1 :: markBGo ts alarms valves fuel (i + 1) true
    else
      0 :: markBGo ts alarms valves fuel (i + 1) false
  | fuel + 1, i, true =>
    if valves.getD i 0 = 2 ∧ 10 ≤ since2 ts valves i then
      0 :: markBGo ts alarms valves fuel (i + 1) false
    else
      1 :: markBGo ts alarms valves fuel (i + 1) true

/-- `mark_failure_period` of `alarm.py` on one asset's time-sorted group:
extract the timestamp, alarm and valve arrays and run the stateful loop
from the normal state. -/
def mark_failure_period (df : List SampleB) : List Int :=
  markBGo (df.map (fun s => s.t)) (df.map (fun s => s.alarm))
    (df.map (fun s => s.valve)) df.length 0 false

/-- The failure labels `mark_failure_period` assigns to the rows of asset
`a`: the per-asset loop runs on the group of that asset's rows with a fresh
state. -/
def labelsForAsset (df : List SampleB) (a : Int) : List Int :=
  mark_failure_period (df.filter (fun s => s.asset == a))

/-- A Variant B sample decorated with an existing failure label. -/
structure LabeledSampleB where
  asset : Int
  t : Int
  alarm : Int
  valve : Int
  label : Int
deriving DecidableEq, Repr, Inhabited

/-- Attach failure labels to Variant B samples. -/
def attachB : List SampleB → List Int → List LabeledSampleB
  | s :: rest, l :: ls => ⟨s.asset, s.t, s.alarm, s.valve, l⟩ :: attachB rest ls
  | _, _ => []

/-- `mark_failure_period` re-run on an already-labeled frame: the loop
extracts and reads only the timestamp, alarm and valve columns. -/
def mark_labeled (df : List LabeledSampleB) : List Int :=
  markBGo (df.map (fun s => s.t)) (df.map (fun s => s.alarm))
    (df.map (fun s => s.valve)) df.length 0 false

/-- A trend sample: asset id, timestamp in seconds, valve position. -/
structure TRow where
  asset : Int
  t : Int
  valve : Int
deriving DecidableEq, Repr, Inhabited

/-- A normalized alarm event: asset id, timestamp in seconds, alarm kind. -/
structure ARow where
  asset : Int
  t : Int
  kind : Int
deriving DecidableEq, Repr, Inhabited

/-- A joined sample: one trend row decorated with at most one alarm kind. -/
structure JRow where
  asset : Int
  t : Int
  valve : Int
  kind : Option Int
deriving DecidableEq, Repr, Inhabited

/-- Output rows of the exact left join for one trend row: one row per alarm
row sharing the trend row's asset and timestamp, in the alarm frame's
order, or a single row with no alarm kind when nothing matches. -/
def joinRow (tr : TRow) (alarm : List ARow) : List JRow :=
  match alarm.filter (fun al => al.asset == tr.asset && al.t == tr.t) with
  | [] => [⟨tr.asset, tr.t, tr.valve, none⟩]
  | ms => ms.map (fun m => ⟨tr.asset, tr.t, tr.valve, some m.kind⟩)

/-- The exact left join `merge_alarm` of `alarm.py`: each trend row is
matched against every alarm row with the same asset and timestamp; with no
match the row is kept once with no alarm kind, and with `k` matches the
trend row appears `k` times, once per matching alarm row. -/
def merge_alarm : List TRow → List ARow → List JRow
  | [], _ => []
  | tr :: rest, alarm => joinRow tr alarm ++ merge_alarm rest alarm

/-- The backward as-of join `asof_for_asset` of `Alarm_algo.py` on one
asset's time-sorted trend group: each trend row is decorated with the kind
of the last alarm row of the same asset whose timestamp is at or before the
trend timestamp, when one exists. -/
def asof_for_asset (a : Int) (trendGrp : List TRow) (alarms : List ARow) : List JRow :=
  trendGrp.map (fun tr =>
    ⟨tr.asset, tr.t, tr.valve,
      ((((alarms.filter (fun al => al.asset == a)).filter
            (fun al => decide (al.t ≤ tr.t))).getLast?).map (fun al => al.kind))⟩)

/-- The `count_transitions` helper of `compute_summary`: the number of
positions whose previous value is `a` and whose own value is `b` (the
shifted comparison never fires at the first row). -/
def count_transitions (l : List Int) (a b : Int) : Nat :=
  (l.zip l.tail).countP (fun p => p.1 == a && p.2 == b)

/-- Number of 0 to 1 edges of a label sequence, stated as a direct
recursion over adjacent pairs; used to compare `count_transitions` with the
spec's description. -/
def spec_count_01 : List Int → Nat
  | [] => 0
  | [_] => 0
  | a :: b :: rest => (if a == 0 && b == 1 then 1 else 0) + spec_count_01 (b :: rest)

/-- Scan for the first position whose previous value is 0 and whose own
value is 1, carrying the previous value and the running index. -/
def firstStartAux (prev : Int) (i : Nat) : List Int → Option Nat
  | [] => none
  | x :: rest => if prev == 0 && x == 1 then some i else firstStartAux x (i + 1) rest

/-- Index of the first 0 to 1 edge of a label sequence; the first row never
qualifies, matching the shifted mask of `first_failure_duration`. -/
def firstStart : List Int → Option Nat
  | [] => none
  | x :: rest => firstStartAux x 1 rest

/-- Index of the first 0 in a list, matching the `zeros.index[0]` lookup of
`first_failure_duration`. -/
def firstZero : List Int → Option Nat
  | [] => none
  | x :: rest => if x == 0 then some 0 else (firstZero rest).map (fun k => k + 1)

/-- `first_failure_duration` of `compute_summary`: locate the first 0 to 1
edge of the label sequence, then the first 0 strictly after it, and return
the elapsed wall time in minutes; `none` when either lookup fails. -/
def first_failure_duration (labels times : List Int) : Option Rat :=
  match firstStart labels with
  | none => none
  | some i =>
    match firstZero (labels.drop (i + 1)) with
    | none => none
    | some k => some (((times.getD (i + 1 + k) 0 - times.getD i 0 : Int) : Rat) / 60)

/-- Scan for the first position whose previous value is 1 and whose own
value is 0, carrying the previous value and the running index. -/
def firstEdge10Aux (prev : Int) (i : Nat) : List Int → Option Nat
  | [] => none
  | x :: rest => if prev == 1 && x == 0 then some i else firstEdge10Aux x (i + 1) rest

/-- Modelled from the spec: the first-episode duration as the specification
words it, namely the wall time in minutes between the first 0 to 1 edge and
the next 1 to 0 edge of the label sequence, missing when either edge does
not exist. Compared against `first_failure_duration`. -/
def spec_first_failure_duration (labels times : List Int) : Option Rat :=
  match firstStart labels with
  | none => none
  | some i =>
    match firstEdge10Aux 1 (i + 1) (labels.drop (i + 1)) with
    | none => none
    | some j => some (((times.getD j 0 - times.getD i 0 : Int) : Rat) / 60)

/-- An instant, in days relative to the Unix epoch. -/
abbrev Instant := Rat

/-- The spreadsheet serial-date epoch 1899-12-30, in days relative to the
Unix epoch, as used by the numeric branch of `robust_parse`. -/
def epoch1899 : Instant := -25569

/-- A raw timestamp cell as `robust_parse` receives it: a missing value, a
numeric spreadsheet serial date, or a textual rendering (free-text date
strings and native datetime values both reach the text branch through
`str(value)`). -/
inductive RawValue where
  | missing : RawValue
  | num : Rat → RawValue
  | text : String → RawValue
deriving DecidableEq, Repr

/-- `robust_parse` of `alarm.py`, with the day-first text parser of the
`dateutil` library abstracted as a partial function `p`: a missing value
returns the `NaT` sentinel (modelled as `Except.ok none`), a numeric value
is offset from the 1899-12-30 epoch in days, and text is handed to the
parser; when the parser fails the script raises an uncaught `ParserError`,
modelled as the `Except.error` case — it is not caught anywhere on the
call path and never replaced by a fallback date. -/
def robust_parse (p : String → Option Instant) : RawValue → Except String (Option Instant)
  | RawValue.missing => Except.ok none
  | RawValue.num d => Except.ok (some (epoch1899 + d))
  | RawValue.text s =>
    match p s with
    | some t => Except.ok (some t)
    | none => Except.error s

/-- The `Series.apply(robust_parse)` step of `load_313pt0_alarms`: the
parser runs over the whole timestamp column in order, and the first raised
error aborts the entire application — no later row is produced and no row
is individually skipped. -/
def apply_robust_parse (p : String → Option Instant) :
    List RawValue → Except String (List (Option Instant))
  | [] => Except.ok []
  | v :: rest =>
    match robust_parse p v with
    | Except.error e => Except.error e
    | Except.ok t =>
      match apply_robust_parse p rest with
      | Except.error e => Except.error e
      | Except.ok ts => Except.ok (t :: ts)

/-- Whether the column-wide parse completed without raising. -/
def parseRunOk : Except String (List (Option Instant)) → Bool
  | Except.ok _ => true
  | Except.error _ => false

/-- Equality test of a possibly-missing alarm timestamp against a trend
timestamp as the exact join performs it: a missing timestamp compares false
against every instant (`NaT` never matches). -/
def joinMatch (a : Option Instant) (t : Instant) : Bool :=
  match a with
  | some ta => ta == t
  | none => false

/-- Appending to the right of a list does not change a successful search. -/
theorem find?_append_some {p : Nat → Bool} {l₁ : List Nat} {x : Nat}
    (l₂ : List Nat) (h : l₁.find? p = some x) : (l₁ ++ l₂).find? p = some x := by
  induction l₁ with
  | nil => simp [List.find?] at h
  | cons a l ih =>
    by_cases ha : p a
    · rw [List.find?_cons_of_pos _ ha] at h
      simpa [List.cons_append, List.find?_cons_of_pos _ ha] using h
    · rw [List.find?_cons_of_neg _ ha] at h
      simpa [List.cons_append, List.find?_cons_of_neg _ ha] using ih h

/-- A search that fails on the first list continues into the second. -/
theorem find?_append_none {p : Nat → Bool} {l₁ : List Nat}
    (l₂ : List Nat) (h : l₁.find? p = none) : (l₁ ++ l₂).find? p = l₂.find? p := by
  induction l₁ with
  | nil => simp
  | cons a l ih =>
    by_cases ha : p a
    · rw [List.find?_cons_of_pos _ ha] at h
      exact absurd h (by simp)
    · rw [List.find?_cons_of_neg _ ha] at h
      simpa [List.cons_append, List.find?_cons_of_neg _ ha] using ih h

/-- The cumulative non-2 count grows by at most one per step. -/
theorem run2_le_succ (valves : List Int) (i : Nat) :
    run2 valves i ≤ run2 valves (i + 1) := by
  show run2 valves i ≤ run2 valves i + (if valves.getD (i + 1) 0 ≠ 2 then 1 else 0)
  exact Nat.le_add_right _ _

/-- The cumulative non-2 count is monotone in the index. -/
theorem run2_mono (valves : List Int) {i j : Nat} (h : i ≤ j) :
    run2 valves i ≤ run2 valves j := by
  induction j with
  | zero =>
    have hi : i = 0 := Nat.le_zero.mp h
    subst hi
    exact Nat.le_refl _
  | succ n ih =>
    rcases Nat.lt_or_ge i (n + 1) with hlt | hge
    · exact Nat.le_trans (ih (Nat.lt_succ_iff.mp hlt)) (run2_le_succ valves n)
    · have hi : i = n + 1 := Nat.le_antisymm h hge
      subst hi
      exact Nat.le_refl _

/-- The first index of the `run2` group of `i` is the most recent index at
or before `i` whose valve position is not 2 (index 0 when there is none):
the `groupby(run2)` group of a valve-2 sample starts at the preceding
non-2 sample. -/
theorem find?_range_run2 (valves : List Int) (i : Nat) :
    (List.range (i + 1)).find? (fun j => run2 valves j == run2 valves i) =
      some (prevNon2 valves i) := by
  induction i with
  | zero =>
    have h1 : List.range 1 = [0] := rfl
    rw [h1]
    exact List.find?_cons_of_pos _ (by simp)
  | succ n ih =>
    rw [List.range_succ]
    by_cases h : valves.getD (n + 1) 0 ≠ 2
    · have hrun : run2 valves (n + 1) = run2 valves n + 1 := by
        show run2 valves n + (if valves.getD (n + 1) 0 ≠ 2 then 1 else 0) =
          run2 valves n + 1
        rw [if_pos h]
      have hnone : (List.range (n + 1)).find?
          (fun j => run2 valves j == run2 valves (n + 1)) = none := by
        rw [List.find?_eq_none]
        intro j hj
        have hjn : j ≤ n := Nat.lt_succ_iff.mp (List.mem_range.mp hj)
        have hle := run2_mono valves hjn
        simp only [beq_iff_eq]
        omega
      rw [find?_append_none _ hnone]
      have hp : prevNon2 valves (n + 1) = n + 1 := by
        show (if valves.getD (n + 1) 0 ≠ 2 then n + 1 else prevNon2 valves n) = n + 1
        rw [if_pos h]
      rw [hp]
      exact List.find?_cons_of_pos _ (by simp)
    · push_neg at h
      have hrun : run2 valves (n + 1) = run2 valves n := by
        show run2 valves n + (if valves.getD (n + 1) 0 ≠ 2 then 1 else 0) =
          run2 valves n
        rw [if_neg (fun hc => hc h), Nat.add_zero]
      rw [hrun]
      rw [find?_append_some _ ih]
      have hp : prevNon2 valves (n + 1) = prevNon2 valves n := by
        show (if valves.getD (n + 1) 0 ≠ 2 then n + 1 else prevNon2 valves n) =
          prevNon2 valves n
        rw [if_neg (fun hc => hc h)]
      rw [hp]

/-- The `since2` the code computes measures the time elapsed since the most
recent sample whose valve position differs from 2 (or since the first
sample when none precedes). -/
theorem since2_eq (ts valves : List Int) (i : Nat) :
    since2 ts valves i = ts.getD i 0 - ts.getD (prevNon2 valves i) 0 := by
  unfold since2 first2
  rw [find?_range_run2]

/-- The look-ahead test is the existence of a strictly later sample within
5 seconds whose valve position is 1. -/
theorem openCond_iff (ts valves : List Int) (t0 : Int) :
    openCond ts valves t0 = true ↔
      ∃ j, j < ts.length ∧ t0 < ts.getD j 0 ∧ ts.getD j 0 ≤ t0 + 5 ∧
        valves.getD j 0 = 1 := by
  unfold openCond
  simp [List.any_eq_true, List.mem_range, and_assoc]

/-- C1: the Variant A detector transitions from normal to failure exactly
when the alarm flag is 1 and the valve position is 1, transitions from
failure back to normal exactly when the valve position is 2, otherwise
holds its state (the state is always 0 or 1), each emitted label is the
state after applying the sample's transition, and the asset-7 scenario
(alarm at t=0 with valve 1, valve 1 at t=3, valve 2 at t=7) yields the
labels 1, 1, 0. -/
theorem c1_variant_a_detector :
    (∀ f v : Int, stepA 0 f v = 1 ↔ (f = 1 ∧ v = 1)) ∧
    (∀ f v : Int, stepA 0 f v = 0 ∨ stepA 0 f v = 1) ∧
    (∀ f v : Int, stepA 1 f v = 0 ↔ v = 2) ∧
    (∀ f v : Int, stepA 1 f v = 1 ∨ stepA 1 f v = 0) ∧
    (∀ (st : Int) (r : RowM) (rest : List RowM) (f : Int) (fs : List Int),
        fpGo st (r :: rest) (f :: fs) =
          stepA st f r.valve :: fpGo (stepA st f r.valve) rest fs) ∧
    variantA_labels [⟨7, 0, true, 1⟩, ⟨7, 3, false, 1⟩, ⟨7, 7, false, 2⟩] = [1, 1, 0] := by
  refine ⟨?_, ?_, ?_, ?_, fun _ _ _ _ _ => rfl, by decide⟩
  · intro f v
    unfold stepA
    split_ifs with h1 h2
    · simp [h1.2.1, h1.2.2]
    · exact absurd h2.1 (by norm_num)
    · constructor
      · intro h
        norm_num at h
      · intro hfv
        exact absurd ⟨rfl, hfv⟩ h1
  · intro f v
    unfold stepA
    split_ifs with h1 h2
    · exact Or.inr rfl
    · exact absurd h2.1 (by norm_num)
    · exact Or.inl rfl
  · intro f v
    unfold stepA
    split_ifs with h1 h2
    · exact absurd h1.1 (by norm_num)
    · simp [h2.2]
    · constructor
      · intro h
        norm_num at h
      · intro hv
        exact absurd ⟨rfl, hv⟩ h2
  · intro f v
    unfold stepA
    split_ifs with h1 h2
    · exact absurd h1.1 (by norm_num)
    · exact Or.inr rfl
    · exact Or.inl rfl

/-- C2: in the normal state the Variant B detector opens a failure exactly
when the sample carries a HiHi alarm (mapped to 1) and some strictly later
sample of the same asset's stream lies within 5 seconds and has valve
position 1; the opening sample itself is labeled 1; and the scenario with
a HiHi alarm at t=0 and valve 1 at t=2 opens the failure at t=0. -/
theorem c2_variant_b_open :
    (∀ (ts alarms valves : List Int) (fuel i : Nat),
        markBGo ts alarms valves (fuel + 1) i false =
          if alarms.getD i 0 = 1 ∧ openCond ts valves (ts.getD i 0) then
            1 :: markBGo ts alarms valves fuel (i + 1) true
          else
            0 :: markBGo ts alarms valves fuel (i + 1) false) ∧
    (∀ (ts valves : List Int) (t0 : Int),
        openCond ts valves t0 = true ↔
          ∃ j, j < ts.length ∧ t0 < ts.getD j 0 ∧ ts.getD j 0 ≤ t0 + 5 ∧
            valves.getD j 0 = 1) ∧
    mark_failure_period [⟨3, 0, 1, 0⟩, ⟨3, 2, 0, 1⟩] = [1, 1] :=
  ⟨fun _ _ _ _ _ => rfl, openCond_iff, by decide⟩

/-- C3 counterexample: with the failure open and the last valve-position-1
sample at t=2, the valve-2 run starting at t=20 closes the episode already
at t=20 (labels 1, 1, 0, 0, 0, 0), although the dwell quantity the spec
defines — seconds since the valve-2 run began — is 0 at t=20 and first
reaches 10 at t=30; the claim's scenario (close at t=30, not at t=20) is
therefore false of the code. -/
theorem c3_counterexample :
    mark_failure_period
        [⟨1, 0, 1, 1⟩, ⟨1, 2, 0, 1⟩, ⟨1, 20, 0, 2⟩, ⟨1, 25, 0, 2⟩,
         ⟨1, 30, 0, 2⟩, ⟨1, 35, 0, 2⟩] = [1, 1, 0, 0, 0, 0] ∧
    since2_spec
        [⟨1, 0, 1, 1⟩, ⟨1, 2, 0, 1⟩, ⟨1, 20, 0, 2⟩, ⟨1, 25, 0, 2⟩,
         ⟨1, 30, 0, 2⟩, ⟨1, 35, 0, 2⟩] 2 = 0 ∧
    since2_spec
        [⟨1, 0, 1, 1⟩, ⟨1, 2, 0, 1⟩, ⟨1, 20, 0, 2⟩, ⟨1, 25, 0, 2⟩,
         ⟨1, 30, 0, 2⟩, ⟨1, 35, 0, 2⟩] 4 = 10 := by
  decide

/-- C3 amended: while in failure the Variant B detector labels every sample
1 and closes exactly at a sample with valve position 2 whose `since2` is at
least 10 seconds, where `since2` is the time elapsed since the most recent
sample with valve position different from 2 (or since the first sample) —
not since the valve-2 run began; hence with the last valve-1 sample at t=2
and valve 2 from t=20 through t=35 the episode closes already at t=20. -/
theorem c3_variant_b_close_amended :
    (∀ (ts alarms valves : List Int) (fuel i : Nat),
        markBGo ts alarms valves (fuel + 1) i true =
          if valves.getD i 0 = 2 ∧ 10 ≤ since2 ts valves i then
            0 :: markBGo ts alarms valves fuel (i + 1) false
          else
            1 :: markBGo ts alarms valves fuel (i + 1) true) ∧
    (∀ (ts valves : List Int) (i : Nat),
        since2 ts valves i = ts.getD i 0 - ts.getD (prevNon2 valves i) 0) ∧
    mark_failure_period
        [⟨1, 0, 1, 1⟩, ⟨1, 2, 0, 1⟩, ⟨1, 20, 0, 2⟩, ⟨1, 25, 0, 2⟩,
         ⟨1, 30, 0, 2⟩, ⟨1, 35, 0, 2⟩] = [1, 1, 0, 0, 0, 0] :=
  ⟨fun _ _ _ _ _ => rfl, since2_eq, by decide⟩

/-- Fallback on a missing second option is the identity. -/
theorem optOr_none (a : Option Int) : optOr a none = a := by
  cases a <;> rfl

/-- Unfolding of the forward-fill on a cons cell. -/
theorem alarmFlagGo_head (last : Option Int) (r : RowM) (rest : List RowM) :
    alarmFlagGo last (r :: rest) =
      (match (if r.hasAlarm then some r.t else last) with
        | some ta => if r.t - ta ≤ 5 then (1 : Int) else 0
        | none => 0) :: alarmFlagGo (if r.hasAlarm then some r.t else last) rest := rfl

/-- A 1-or-0 indicator equals 1 exactly when its condition holds. -/
theorem ite_one_zero_eq_one (c : Prop) [Decidable c] :
    ((if c then (1 : Int) else 0) = 1) ↔ c := by
  split_ifs with h
  · simpa using h
  · constructor
    · intro h01
      exact absurd h01 (by norm_num)
    · intro hc
      exact absurd hc h

/-- Invariant of the forward-fill: position `i` of the flag column is 1
exactly when the most recent alarm annotation at or before `i` — falling
back to the carried-in last alarm timestamp when the prefix has none — lies
within 5 seconds of the row's timestamp. -/
theorem alarmFlagGo_spec (rows : List RowM) :
    ∀ (last : Option Int) (i : Nat), i < rows.length →
      ((alarmFlagGo last rows).getD i 0 = 1 ↔
        ∃ ta, optOr ((((rows.take (i + 1)).filter (fun r => r.hasAlarm)).getLast?).map
            (fun r => r.t)) last = some ta ∧ (rows.getD i default).t - ta ≤ 5) := by
  induction rows with
  | nil =>
    intro last i h
    simp at h
  | cons r rest ih =>
    intro last i h
    rw [alarmFlagGo_head]
    cases i with
    | zero =>
      rw [List.getD_cons_zero, List.getD_cons_zero]
      have htake : (r :: rest).take 1 = [r] := rfl
      rw [htake]
      cases ha : r.hasAlarm with
      | true =>
        simp only [if_pos rfl, List.filter_cons, ha, if_pos]
        constructor
        · intro _
          exact ⟨r.t, by simp [optOr], by omega⟩
        · intro _
          rw [ite_one_zero_eq_one]
          omega
      | false =>
        simp only [if_neg Bool.false_ne_true, List.filter_cons, ha]
        simp only [Bool.false_eq_true, if_neg, List.filter_nil, List.getLast?_nil,
          Option.map_none', optOr]
        cases last with
        | none => simp
        | some ta =>
          rw [ite_one_zero_eq_one]
          constructor
          · intro hle
            exact ⟨ta, rfl, hle⟩
          · rintro ⟨ta', hta', hle⟩
            injection hta' with hta'
            subst hta'
            exact hle
    | succ n =>
      rw [List.getD_cons_succ, List.getD_cons_succ]
      have hn : n < rest.length := by simpa using h
      have htake : (r :: rest).take (n + 2) = r :: rest.take (n + 1) := rfl
      rw [htake, List.filter_cons]
      cases ha : r.hasAlarm with
      | true =>
        simp only [if_pos rfl, ha, if_pos]
        rw [ih (some r.t) n hn]
        cases hF : (rest.take (n + 1)).filter (fun r => r.hasAlarm) with
        | nil => simp [optOr]
        | cons f F' =>
          obtain ⟨y, hy⟩ : ∃ y, (f :: F').getLast? = some y := by
            cases hnone : (f :: F').getLast? with
            | some y => exact ⟨y, rfl⟩
            | none => simp [List.getLast?_eq_none_iff] at hnone
          rw [List.getLast?_cons_cons, hy]
          simp [optOr]
      | false =>
        simp only [ha, Bool.false_eq_true, if_false]
        rw [ih last n hn]

/-- C5 counterexample: in the time-sorted merged frame, an alarm of asset 1
at t=0 sets the alarm flag of asset 2's sample at t=2 (flags 1, 1) even
though asset 2 carries no alarm annotation anywhere — the forward fill of
`alarm_time` is global over the frame, not scoped per asset, so the claim
that an alarm of a different asset never sets the flag is false. -/
theorem c5_counterexample :
    alarm_flag [⟨1, 0, true, 1⟩, ⟨2, 2, false, 1⟩] = [1, 1] ∧
    (([⟨1, 0, true, 1⟩, ⟨2, 2, false, 1⟩] : List RowM).getD 1 default).hasAlarm = false ∧
    (([⟨1, 0, true, 1⟩, ⟨2, 2, false, 1⟩] : List RowM).getD 1 default).asset = 2 ∧
    (([⟨1, 0, true, 1⟩, ⟨2, 2, false, 1⟩] : List RowM).getD 0 default).asset = 1 := by
  decide

/-- C5 amended: over the time-sorted merged frame, a sample's alarm flag is
1 exactly when its timestamp lies within 5 seconds after the most recent
alarm annotation of any asset at or before it in the frame (tracked as a
running last-alarm timestamp forward-propagated row by row), and 0
otherwise; the per-asset scoping of the original claim does not hold. -/
theorem c5_alarm_flag_amended (rows : List RowM) (i : Nat) (h : i < rows.length) :
    (alarm_flag rows).getD i 0 = 1 ↔
      ∃ ta, lastAlarmAt rows i = some ta ∧ (rows.getD i default).t - ta ≤ 5 := by
  have hspec := alarmFlagGo_spec rows none i h
  unfold alarm_flag
  rw [hspec]
  unfold lastAlarmAt
  rw [optOr_none]

/-- C5 amended witness: the amended characterization evaluated on the
counterexample frame at position 1. -/
theorem c5_alarm_flag_amended_witness :
    ((alarm_flag [⟨1, 0, true, 1⟩, ⟨2, 2, false, 1⟩]).getD 1 0 = 1 ↔
      ∃ ta, lastAlarmAt [⟨1, 0, true, 1⟩, ⟨2, 2, false, 1⟩] 1 = some ta ∧
        (([⟨1, 0, true, 1⟩, ⟨2, 2, false, 1⟩] : List RowM).getD 1 default).t - ta ≤ 5) :=
  c5_alarm_flag_amended [⟨1, 0, true, 1⟩, ⟨2, 2, false, 1⟩] 1 (by decide)

/-- C4 counterexample: in Variant A the single `in_failure` variable is not
reset at asset boundaries. Asset 2's only sample (t=10, no alarm within 5
seconds, valve 1) is labeled 1 when preceded by asset 1's failure-opening
sample, but 0 when asset 2's stream is processed alone — the label of an
asset is not a function of that asset's own stream. -/
theorem c4_counterexample :
    variantA_labels [⟨1, 0, true, 1⟩, ⟨2, 10, false, 1⟩] = [1, 1] ∧
    variantA_labels [⟨2, 10, false, 1⟩] = [0] := by
  decide

/-- C4 amended: Variant B's detector is scoped per asset — the labels of an
asset's rows are a function of that asset's own group only — while Variant
A's single-state loop carries its final state over an asset boundary: on an
asset-partitioned frame the labels of the second block are produced from
the final state the first block reached, not from a fresh NORMAL state. -/
theorem c4_isolation_amended :
    (∀ (df₁ df₂ : List SampleB) (a : Int),
        df₁.filter (fun s => s.asset == a) = df₂.filter (fun s => s.asset == a) →
        labelsForAsset df₁ a = labelsForAsset df₂ a) ∧
    (∀ (st : Int) (xs ys : List RowM) (fxs fys : List Int),
        xs.length = fxs.length →
        fpGo st (xs ++ ys) (fxs ++ fys) =
          fpGo st xs fxs ++ fpGo (fpFinal st xs fxs) ys fys) := by
  constructor
  · intro df₁ df₂ a hfilter
    unfold labelsForAsset
    rw [hfilter]
  · intro st xs ys fxs fys hlen
    induction xs generalizing st fxs with
    | nil =>
      have hf : fxs = [] := by
        cases fxs with
        | nil => rfl
        | cons a l => simp at hlen
      subst hf
      rfl
    | cons x xt ih =>
      cases fxs with
      | nil => simp at hlen
      | cons f ft =>
        have hlen' : xt.length = ft.length := by simpa using hlen
        show stepA st f x.valve ::
            fpGo (stepA st f x.valve) (xt ++ ys) (ft ++ fys) =
          (stepA st f x.valve :: fpGo (stepA st f x.valve) xt ft) ++
            fpGo (fpFinal (stepA st f x.valve) xt ft) ys fys
        rw [List.cons_append, ih _ _ hlen']

/-- C4 amended witness: both parts of the amended statement evaluated on
concrete frames. -/
theorem c4_isolation_amended_witness :
    labelsForAsset [⟨1, 0, 1, 1⟩, ⟨2, 6, 0, 1⟩] 2 = labelsForAsset [⟨2, 6, 0, 1⟩] 2 ∧
    fpGo 0 ([⟨1, 0, true, 1⟩] ++ [⟨2, 10, false, 1⟩]) ([1] ++ [0]) =
      fpGo 0 [⟨1, 0, true, 1⟩] [1] ++
        fpGo (fpFinal 0 [⟨1, 0, true, 1⟩] [1]) [⟨2, 10, false, 1⟩] [0] :=
  ⟨c4_isolation_amended.1 _ _ 2 (by decide),
   c4_isolation_amended.2 0 _ _ _ _ (by decide)⟩

/-- Re-running the Variant A loop on rows decorated with their flags and
labels reproduces the labels, for every starting state. -/
theorem fpGoL_attach (rows : List RowM) :
    ∀ (flags : List Int) (st : Int),
      fpGoL st (attachA rows flags (fpGo st rows flags)) = fpGo st rows flags := by
  induction rows with
  | nil =>
    intro flags st
    rfl
  | cons r rest ih =>
    intro flags st
    cases flags with
    | nil => rfl
    | cons f fs =>
      exact congrArg (List.cons (stepA st f r.valve)) (ih fs (stepA st f r.valve))

/-- The Variant B loop emits exactly one label per unit of fuel. -/
theorem markBGo_length (ts alarms valves : List Int) :
    ∀ (fuel i : Nat) (inf : Bool), (markBGo ts alarms valves fuel i inf).length = fuel := by
  intro fuel
  induction fuel with
  | zero =>
    intro i inf
    rfl
  | succ n ih =>
    intro i inf
    cases inf <;> (simp only [markBGo]; split <;> simp [ih])

/-- `mark_failure_period` emits one label per sample. -/
theorem mark_length (df : List SampleB) :
    (mark_failure_period df).length = df.length :=
  markBGo_length _ _ _ df.length 0 false

/-- Attaching labels preserves the timestamp column. -/
theorem attachB_map_t (df : List SampleB) :
    ∀ ls : List Int, df.length = ls.length →
      (attachB df ls).map (fun s => s.t) = df.map (fun s => s.t) := by
  induction df with
  | nil =>
    intro ls _
    rfl
  | cons s rest ih =>
    intro ls h
    cases ls with
    | nil => simp at h
    | cons l ls' =>
      exact congrArg (List.cons s.t) (ih ls' (by simpa using h))

/-- Attaching labels preserves the alarm column. -/
theorem attachB_map_alarm (df : List SampleB) :
    ∀ ls : List Int, df.length = ls.length →
      (attachB df ls).map (fun s => s.alarm) = df.map (fun s => s.alarm) := by
  induction df with
  | nil =>
    intro ls _
    rfl
  | cons s rest ih =>
    intro ls h
    cases ls with
    | nil => simp at h
    | cons l ls' =>
      exact congrArg (List.cons s.alarm) (ih ls' (by simpa using h))

/-- Attaching labels preserves the valve column. -/
theorem attachB_map_valve (df : List SampleB) :
    ∀ ls : List Int, df.length = ls.length →
      (attachB df ls).map (fun s => s.valve) = df.map (fun s => s.valve) := by
  induction df with
  | nil =>
    intro ls _
    rfl
  | cons s rest ih =>
    intro ls h
    cases ls with
    | nil => simp at h
    | cons l ls' =>
      exact congrArg (List.cons s.valve) (ih ls' (by simpa using h))

/-- Attaching labels preserves the row count. -/
theorem attachB_length (df : List SampleB) :
    ∀ ls : List Int, df.length = ls.length → (attachB df ls).length = df.length := by
  induction df with
  | nil =>
    intro ls _
    rfl
  | cons s rest ih =>
    intro ls h
    cases ls with
    | nil => simp at h
    | cons l ls' =>
      exact congrArg Nat.succ (ih ls' (by simpa using h))

/-- Re-running `mark_failure_period` on its own labeled output reproduces
the labels: the loop extracts and reads only the timestamp, alarm and valve
columns, which attaching labels leaves unchanged. -/
theorem mark_labeled_attach (df : List SampleB) :
    mark_labeled (attachB df (mark_failure_period df)) = mark_failure_period df := by
  have hlen : df.length = (mark_failure_period df).length := (mark_length df).symm
  unfold mark_labeled
  rw [attachB_map_t df _ hlen, attachB_map_alarm df _ hlen,
    attachB_map_valve df _ hlen, attachB_length df _ hlen]
  rfl

/-- C8: re-running either detector on its own already-labeled output does
not alter any label — the Variant A loop over rows decorated with flags and
labels reproduces the labels from any starting state position, and the
Variant B loop re-run on the label-decorated frame reproduces the labels,
because each transition is a pure function of the state and the current
sample's flag/alarm/valve/timestamp fields only. -/
theorem c8_detector_idempotence :
    (∀ (rows : List RowM) (flags : List Int),
        fpGoL 0 (attachA rows flags (failure_period rows flags)) =
          failure_period rows flags) ∧
    (∀ df : List SampleB,
        mark_labeled (attachB df (mark_failure_period df)) = mark_failure_period df) :=
  ⟨fun rows flags => fpGoL_attach rows flags 0, mark_labeled_attach⟩

/-- With pairwise-distinct (asset, timestamp) keys, at most one alarm row
matches any given key. -/
theorem filter_unique_key (alarm : List ARow) (x y : Int)
    (hp : alarm.Pairwise (fun a b => ¬(a.asset = b.asset ∧ a.t = b.t))) :
    (alarm.filter (fun al => al.asset == x && al.t == y)).length ≤ 1 := by
  induction alarm with
  | nil => simp
  | cons a l ih =>
    rw [List.pairwise_cons] at hp
    obtain ⟨ha, hl⟩ := hp
    rw [List.filter_cons]
    by_cases hkey : ((a.asset == x) && (a.t == y)) = true
    · rw [if_pos hkey]
      have hempty : l.filter (fun al => al.asset == x && al.t == y) = [] := by
        rw [List.filter_eq_nil_iff]
        intro b hb hkb
        have h1 : a.asset = x ∧ a.t = y := by simpa using hkey
        have h2 : b.asset = x ∧ b.t = y := by simpa using hkb
        exact ha b hb ⟨h1.1.trans h2.1.symm, h1.2.trans h2.2.symm⟩
      rw [hempty]
      simp
    · rw [if_neg hkey]
      exact ih hl

/-- With unique alarm keys, the join output of one trend row is a single
row carrying that trend row's asset. -/
theorem joinRow_countP (tr : TRow) (alarm : List ARow) (a : Int)
    (hp : alarm.Pairwise (fun a b => ¬(a.asset = b.asset ∧ a.t = b.t))) :
    (joinRow tr alarm).countP (fun r => r.asset == a) =
      if (tr.asset == a) = true then 1 else 0 := by
  unfold joinRow
  cases hF : alarm.filter (fun al => al.asset == tr.asset && al.t == tr.t) with
  | nil => simp [List.countP_cons]
  | cons m ms' =>
    have hlen := filter_unique_key alarm tr.asset tr.t hp
    rw [hF] at hlen
    have hms : ms' = [] := by
      cases ms' with
      | nil => rfl
      | cons _ _ => simp at hlen
    subst hms
    simp [List.countP_cons]

/-- With unique alarm keys, the exact left join preserves the per-asset row
count. -/
theorem merge_alarm_count (trend : List TRow) (alarm : List ARow)
    (hp : alarm.Pairwise (fun a b => ¬(a.asset = b.asset ∧ a.t = b.t))) (a : Int) :
    (merge_alarm trend alarm).countP (fun r => r.asset == a) =
      trend.countP (fun r => r.asset == a) := by
  induction trend with
  | nil => rfl
  | cons tr rest ih =>
    show ((joinRow tr alarm) ++ merge_alarm rest alarm).countP _ = _
    rw [List.countP_append, ih, joinRow_countP tr alarm a hp, List.countP_cons]
    rw [Nat.add_comm]

/-- C6 counterexample: a trend row whose (asset, timestamp) key matches two
alarm rows is duplicated by the exact left join — one trend row yields two
joined rows — so the claim that either join policy yields exactly one
joined sample per trend row is false. -/
theorem c6_counterexample :
    (merge_alarm [⟨1, 5, 1⟩] [⟨1, 5, 1⟩, ⟨1, 5, -1⟩]).length = 2 ∧
    ([⟨1, 5, 1⟩] : List TRow).length = 1 := by
  decide

/-- C6 amended: the backward as-of join always yields exactly one joined
sample per trend row with at most one alarm annotation, and the exact left
join preserves per-asset row counts provided the alarm frame's (asset,
timestamp) keys are pairwise distinct; with a duplicated key a trend row
is emitted once per matching alarm row. -/
theorem c6_join_counts_amended :
    (∀ (trend : List TRow) (alarm : List ARow),
        alarm.Pairwise (fun a b => ¬(a.asset = b.asset ∧ a.t = b.t)) →
        ∀ a : Int,
          (merge_alarm trend alarm).countP (fun r => r.asset == a) =
            trend.countP (fun r => r.asset == a)) ∧
    (∀ (a : Int) (grp : List TRow) (alarms : List ARow),
        (asof_for_asset a grp alarms).length = grp.length) :=
  ⟨fun trend alarm hp a => merge_alarm_count trend alarm hp a,
   fun a grp alarms => by simp [asof_for_asset]⟩

/-- C6 amended witness: both parts evaluated on concrete frames. -/
theorem c6_join_counts_amended_witness :
    (merge_alarm [⟨1, 5, 1⟩, ⟨2, 5, 1⟩] [⟨1, 5, 1⟩]).countP (fun r => r.asset == 1) =
      ([⟨1, 5, 1⟩, ⟨2, 5, 1⟩] : List TRow).countP (fun r => r.asset == 1) ∧
    (asof_for_asset 1 [⟨1, 0, 1⟩, ⟨1, 10, 2⟩] [⟨1, 3, 1⟩]).length = 2 :=
  ⟨c6_join_counts_amended.1 _ _ (by decide) 1,
   c6_join_counts_amended.2 1 [⟨1, 0, 1⟩, ⟨1, 10, 2⟩] [⟨1, 3, 1⟩]⟩

/-- The shift-based transition count agrees with the direct adjacent-pair
count of 0 to 1 edges. -/
theorem count_transitions_eq_spec : ∀ l : List Int, count_transitions l 0 1 = spec_count_01 l
  | [] => rfl
  | [_] => rfl
  | a :: b :: rest => by
    have ih : count_transitions (b :: rest) 0 1 = spec_count_01 (b :: rest) :=
      count_transitions_eq_spec (b :: rest)
    show (((a, b) :: (b :: rest).zip rest).countP fun q => q.1 == 0 && q.2 == 1) =
      spec_count_01 (a :: b :: rest)
    rw [List.countP_cons]
    have ihz : (((b :: rest).zip rest).countP fun q => q.1 == 0 && q.2 == 1) =
        spec_count_01 (b :: rest) := ih
    rw [ihz]
    show spec_count_01 (b :: rest) + (if ((a == 0 && b == 1) : Bool) then 1 else 0) =
      (if ((a == 0 && b == 1) : Bool) then 1 else 0) + spec_count_01 (b :: rest)
    exact Nat.add_comm _ _

/-- On a 0/1-valued list the scan for a 1-to-0 edge starting from previous
value 1 lands on the first 0, offset by the base index. -/
theorem firstEdge10_eq_firstZero : ∀ l : List Int, (∀ x ∈ l, x = 0 ∨ x = 1) →
    ∀ base : Nat, firstEdge10Aux 1 base l = (firstZero l).map (fun k => k + base) := by
  intro l
  induction l with
  | nil =>
    intro _ base
    rfl
  | cons x rest ih =>
    intro hbin base
    have hrest : ∀ y ∈ rest, y = 0 ∨ y = 1 := fun y hy => hbin y (by simp [hy])
    rcases hbin x (by simp) with hx | hx
    · subst hx
      simp [firstEdge10Aux, firstZero]
    · subst hx
      have hstep : firstEdge10Aux 1 base (1 :: rest) = firstEdge10Aux 1 (base + 1) rest := by
        simp [firstEdge10Aux]
      have hz : firstZero (1 :: rest) = (firstZero rest).map (fun k => k + 1) := by
        simp [firstZero]
      rw [hstep, hz, ih hrest (base + 1), Option.map_map]
      cases firstZero rest with
      | none => rfl
      | some k =>
        simp [Function.comp]
        omega

/-- On a 0/1-valued label sequence the code's first-zero lookup computes
the spec's next-1-to-0-edge duration. -/
theorem first_failure_duration_eq_spec (labels times : List Int)
    (hbin : ∀ x ∈ labels, x = 0 ∨ x = 1) :
    first_failure_duration labels times = spec_first_failure_duration labels times := by
  cases hs : firstStart labels with
  | none =>
    unfold first_failure_duration spec_first_failure_duration
    rw [hs]
  | some i =>
    have hbd : ∀ x ∈ labels.drop (i + 1), x = 0 ∨ x = 1 :=
      fun y hy => hbin y (List.drop_subset _ _ hy)
    have hL : first_failure_duration labels times =
        (match firstZero (labels.drop (i + 1)) with
          | none => none
          | some k => some (((times.getD (i + 1 + k) 0 - times.getD i 0 : Int) : Rat) / 60)) := by
      unfold first_failure_duration
      rw [hs]
    have hR : spec_first_failure_duration labels times =
        (match firstEdge10Aux 1 (i + 1) (labels.drop (i + 1)) with
          | none => none
          | some j => some (((times.getD j 0 - times.getD i 0 : Int) : Rat) / 60)) := by
      unfold spec_first_failure_duration
      rw [hs]
    rw [hL, hR, firstEdge10_eq_firstZero _ hbd (i + 1)]
    cases hz : firstZero (labels.drop (i + 1)) with
    | none => rfl
    | some k =>
      show some (((times.getD (i + 1 + k) 0 - times.getD i 0 : Int) : Rat) / 60) =
        some (((times.getD (k + (i + 1)) 0 - times.getD i 0 : Int) : Rat) / 60)
      rw [Nat.add_comm k (i + 1)]

/-- A found 0-to-1 edge forces at least one counted 0-to-1 transition. -/
theorem firstStartAux_le_count : ∀ (rest : List Int) (prev : Int) (i j : Nat),
    firstStartAux prev i rest = some j →
    1 ≤ ((prev :: rest).zip rest).countP (fun q => q.1 == 0 && q.2 == 1) := by
  intro rest
  induction rest with
  | nil =>
    intro prev i j h
    simp [firstStartAux] at h
  | cons y rest' ih =>
    intro prev i j h
    show 1 ≤ (((prev, y) :: (y :: rest').zip rest').countP fun q => q.1 == 0 && q.2 == 1)
    rw [List.countP_cons]
    by_cases hc : ((prev == (0 : Int)) && (y == (1 : Int))) = true
    · simp [hc]
    · have h' : firstStartAux y (i + 1) rest' = some j := by
        unfold firstStartAux at h
        rwa [if_neg hc] at h
      have hge := ih y (i + 1) j h'
      omega

/-- A found 0-to-1 edge forces a positive transition count. -/
theorem firstStart_count (l : List Int) (j : Nat) (h : firstStart l = some j) :
    1 ≤ count_transitions l 0 1 := by
  cases l with
  | nil => simp [firstStart] at h
  | cons x rest => exact firstStartAux_le_count rest x 1 j h

/-- C7: the failure count is the number of 0 to 1 edges of the label
sequence; on 0/1 labels the first-failure duration is the wall time in
minutes between the first 0 to 1 edge and the next 1 to 0 edge; a 450
second episode yields 7.5 minutes; and when the first opened episode never
closes the duration is missing while the count still includes the opened
episode. -/
theorem c7_summary_reducer :
    (∀ l : List Int, count_transitions l 0 1 = spec_count_01 l) ∧
    (∀ labels times : List Int, (∀ x ∈ labels, x = 0 ∨ x = 1) →
        first_failure_duration labels times = spec_first_failure_duration labels times) ∧
    first_failure_duration [0, 1, 1, 0] [0, 30, 300, 480] = some (15 / 2 : Rat) ∧
    (∀ (labels times : List Int) (i : Nat), firstStart labels = some i →
        firstZero (labels.drop (i + 1)) = none →
        first_failure_duration labels times = none ∧ 1 ≤ count_transitions labels 0 1) := by
  have hscenario : first_failure_duration [0, 1, 1, 0] [0, 30, 300, 480] =
      some (15 / 2 : Rat) := by
    have h1 : first_failure_duration [0, 1, 1, 0] [0, 30, 300, 480] =
        some (((450 : Int) : Rat) / 60) := rfl
    rw [h1]
    norm_num
  refine ⟨count_transitions_eq_spec, first_failure_duration_eq_spec, hscenario, ?_⟩
  intro labels times i hs hz
  constructor
  · simp only [first_failure_duration, hs, hz]
  · exact firstStart_count labels i hs

/-- C7 witness: the duration equivalence and the unclosed-episode boundary
evaluated on concrete label sequences. -/
theorem c7_summary_reducer_witness :
    first_failure_duration [0, 1, 0] [0, 60, 120] =
      spec_first_failure_duration [0, 1, 0] [0, 60, 120] ∧
    (first_failure_duration [0, 1, 1] [0, 1, 2] = none ∧
      1 ≤ count_transitions [0, 1, 1] 0 1) :=
  ⟨c7_summary_reducer.2.1 _ _ (by decide),
   c7_summary_reducer.2.2.2 [0, 1, 1] [0, 1, 2] 1 (by decide) (by decide)⟩

/-- One unparseable text value anywhere in the column makes the whole
column-wide parse raise: the error propagates out of `apply`, it is not
confined to the offending row. -/
theorem apply_error_of_mem (p : String → Option Instant) :
    ∀ (raws : List RawValue) (s : String), RawValue.text s ∈ raws → p s = none →
      parseRunOk (apply_robust_parse p raws) = false := by
  intro raws
  induction raws with
  | nil =>
    intro s hmem _
    simp at hmem
  | cons v rest ih =>
    intro s hmem hp
    rcases List.mem_cons.mp hmem with heq | hmem'
    · subst heq
      have hr : robust_parse p (RawValue.text s) = Except.error s := by
        simp [robust_parse, hp]
      unfold apply_robust_parse
      rw [hr]
      rfl
    · have hres := ih s hmem' hp
      cases hv : robust_parse p v with
      | error e =>
        unfold apply_robust_parse
        rw [hv]
        rfl
      | ok t =>
        cases hrest : apply_robust_parse p rest with
        | error e =>
          unfold apply_robust_parse
          rw [hv, hrest]
          rfl
        | ok ts =>
          rw [hrest] at hres
          simp [parseRunOk] at hres

/-- C9 counterexample: with a parser accepting only "06-01-2024", the
column [parseable, unparseable] does not produce an output with the bad
row excluded — the whole apply raises, losing the parseable row too —
whereas the column without the bad value parses completely; so the claim
that any unparseable value causes (only) its row to be excluded is false
of the code. -/
theorem c9_counterexample :
    apply_robust_parse (fun s => if s = "06-01-2024" then some (19728 : Instant) else none)
        [RawValue.text "06-01-2024", RawValue.text "nonsense"] =
      Except.error "nonsense" ∧
    apply_robust_parse (fun s => if s = "06-01-2024" then some (19728 : Instant) else none)
        [RawValue.text "06-01-2024"] = Except.ok [some 19728] :=
  ⟨rfl, rfl⟩

/-- C9 amended: for every text parser, numeric serial dates, parser-accepted
text (which is how both free-text date strings and stringified native
datetime values are handled) and missing values all produce values of the
one instant type; a successful parse always comes from the value's own
branch (never a fallback date); a missing value yields the NaT sentinel,
which never matches any trend timestamp in the exact join, so such a row
never folds into the joined data; but an unparseable text value raises an
uncaught parser error that aborts the entire column-wide load — it is not
merely excluded row by row. -/
theorem c9_timestamp_parsing_amended (p : String → Option Instant) :
    (∀ d : Rat, robust_parse p (RawValue.num d) = Except.ok (some (epoch1899 + d))) ∧
    (∀ (s : String) (t : Instant), p s = some t →
        robust_parse p (RawValue.text s) = Except.ok (some t)) ∧
    (∀ s : String, p s = none → robust_parse p (RawValue.text s) = Except.error s) ∧
    robust_parse p RawValue.missing = Except.ok none ∧
    (∀ (v : RawValue) (t : Instant), robust_parse p v = Except.ok (some t) →
        (∃ d, v = RawValue.num d ∧ t = epoch1899 + d) ∨
        (∃ s, v = RawValue.text s ∧ p s = some t)) ∧
    (∀ t : Instant, joinMatch none t = false) ∧
    (∀ (raws : List RawValue) (s : String), RawValue.text s ∈ raws → p s = none →
        parseRunOk (apply_robust_parse p raws) = false) := by
  refine ⟨fun d => rfl, ?_, ?_, rfl, ?_, fun t => rfl, apply_error_of_mem p⟩
  · intro s t h
    simp [robust_parse, h]
  · intro s h
    simp [robust_parse, h]
  · intro v t h
    cases v with
    | missing => simp [robust_parse] at h
    | num d =>
      left
      refine ⟨d, rfl, ?_⟩
      have h' : Except.ok (ε := String) (some (epoch1899 + d)) = Except.ok (some t) := h
      injection h' with h''
      injection h'' with h'''
      exact h'''.symm
    | text s =>
      right
      refine ⟨s, rfl, ?_⟩
      cases hp : p s with
      | some u =>
        simp [robust_parse, hp] at h
        rw [h]
      | none =>
        simp [robust_parse, hp] at h

/-- C9 amended witness: the parsing contract with a concrete one-entry
parser — a parseable string, an unparseable one, and the column-wide abort
it triggers. -/
theorem c9_timestamp_parsing_amended_witness :
    robust_parse (fun s => if s = "06-01-2024" then some (19728 : Instant) else none)
        (RawValue.text "06-01-2024") = Except.ok (some 19728) ∧
    robust_parse (fun s => if s = "06-01-2024" then some (19728 : Instant) else none)
        (RawValue.text "nonsense") = Except.error "nonsense" ∧
    parseRunOk (apply_robust_parse
        (fun s => if s = "06-01-2024" then some (19728 : Instant) else none)
        [RawValue.text "06-01-2024", RawValue.text "nonsense"]) = false :=
  ⟨(c9_timestamp_parsing_amended _).2.1 _ _ rfl,
   (c9_timestamp_parsing_amended _).2.2.1 _ rfl,
   (c9_timestamp_parsing_amended _).2.2.2.2.2.2 _ "nonsense" (by decide) rfl⟩

/-- A leading 1 never contributes a 0-to-1 transition. -/
theorem count_transitions_cons_one : ∀ t : List Int,
    count_transitions (1 :: t) 0 1 = count_transitions t 0 1
  | [] => rfl
  | y :: t' => by
    show ((((1 : Int), y) :: (y :: t').zip t').countP fun q => q.1 == 0 && q.2 == 1) =
      (((y :: t').zip t').countP fun q => q.1 == 0 && q.2 == 1)
    rw [List.countP_cons]
    simp

/-- A leading run of 1-labels contributes no 0-to-1 transition. -/
theorem count_replicate_one (m : Nat) (l : List Int) :
    count_transitions (List.replicate m 1 ++ l) 0 1 = count_transitions l 0 1 := by
  induction m with
  | zero => rfl
  | succ n ih =>
    show count_transitions (1 :: (List.replicate n 1 ++ l)) 0 1 = _
    rw [count_transitions_cons_one]
    exact ih

/-- Shifting the base index of the edge scan shifts its result. -/
theorem firstStartAux_shift : ∀ (l : List Int) (prev : Int) (b k : Nat),
    firstStartAux prev (b + k) l = (firstStartAux prev b l).map (fun j => j + k) := by
  intro l
  induction l with
  | nil =>
    intro prev b k
    rfl
  | cons x rest ih =>
    intro prev b k
    by_cases hc : ((prev == (0 : Int)) && (x == (1 : Int))) = true
    · simp [firstStartAux, hc]
    · simp only [firstStartAux, hc, Bool.false_eq_true, if_false, if_neg]
      have hb : b + k + 1 = b + 1 + k := by omega
      rw [hb]
      exact ih x (b + 1) k

/-- The edge scan with previous value 1 walks through a leading run of
1-labels, advancing only its base index. -/
theorem firstStartAux_one_eats : ∀ (k : Nat) (l : List Int) (b : Nat),
    firstStartAux 1 b (List.replicate k 1 ++ l) = firstStartAux 1 (b + k) l := by
  intro k
  induction k with
  | zero =>
    intro l b
    rfl
  | succ n ih =>
    intro l b
    show firstStartAux 1 (b + 1) (List.replicate n 1 ++ l) = firstStartAux 1 (b + (n + 1)) l
    rw [ih l (b + 1)]
    have hb : b + 1 + n = b + (n + 1) := by omega
    rw [hb]

/-- The first 0-to-1 edge of a label sequence with a leading run of
1-labels is the first such edge of the remainder, shifted by the run's
length. -/
theorem firstStart_replicate (m : Nat) (hm : 1 ≤ m) (l : List Int) :
    firstStart (List.replicate m 1 ++ l) = (firstStart l).map (fun j => j + m) := by
  obtain ⟨n, rfl⟩ : ∃ n, m = n + 1 := ⟨m - 1, by omega⟩
  show firstStartAux 1 1 (List.replicate n 1 ++ l) = _
  rw [firstStartAux_one_eats n l 1]
  cases l with
  | nil => rfl
  | cons x rest =>
    show firstStartAux x (1 + n + 1) rest = (firstStartAux x 1 rest).map (fun j => j + (n + 1))
    have hb : 1 + n + 1 = 1 + (n + 1) := by omega
    rw [hb]
    exact firstStartAux_shift rest x 1 (n + 1)

/-- Reading an element of a dropped list reads the shifted position of the
original list. -/
theorem getD_drop_int : ∀ (m : Nat) (times : List Int) (j : Nat),
    (times.drop m).getD j 0 = times.getD (m + j) 0 := by
  intro m
  induction m with
  | zero =>
    intro times j
    simp [Nat.zero_add]
  | succ n ih =>
    intro times j
    cases times with
    | nil => simp
    | cons x rest =>
      show (rest.drop n).getD j 0 = (x :: rest).getD (n + 1 + j) 0
      rw [ih rest j]
      have hb : n + 1 + j = (n + j) + 1 := by omega
      rw [hb, List.getD_cons_succ]

/-- Dropping the length of a leading block plus an offset drops the block
and then the offset. -/
theorem drop_append_replicate : ∀ (m : Nat) (l : List Int) (n : Nat),
    (List.replicate m (1 : Int) ++ l).drop (m + n) = l.drop n := by
  intro m
  induction m with
  | zero =>
    intro l n
    simp [Nat.zero_add]
  | succ k ih =>
    intro l n
    have hb : k + 1 + n = (k + n) + 1 := by omega
    rw [hb]
    show (List.replicate k 1 ++ l).drop (k + n) = l.drop n
    exact ih l n

/-- A label sequence opening with a leading run of 1-labels derives its
first-failure duration from the remainder alone, with the time column
shifted past the run. -/
theorem duration_replicate (m : Nat) (hm : 1 ≤ m) (labels times : List Int) :
    first_failure_duration (List.replicate m 1 ++ labels) times =
      first_failure_duration labels (times.drop m) := by
  cases hs : firstStart labels with
  | none =>
    have hrep : firstStart (List.replicate m 1 ++ labels) = none := by
      rw [firstStart_replicate m hm labels, hs]
      rfl
    unfold first_failure_duration
    rw [hrep, hs]
  | some i =>
    have hrep : firstStart (List.replicate m 1 ++ labels) = some (i + m) := by
      rw [firstStart_replicate m hm labels, hs]
      rfl
    have hdrop : (List.replicate m 1 ++ labels).drop (i + m + 1) = labels.drop (i + 1) := by
      have hb : i + m + 1 = m + (i + 1) := by omega
      rw [hb]
      exact drop_append_replicate m labels (i + 1)
    have hL : first_failure_duration (List.replicate m 1 ++ labels) times =
        (match firstZero (labels.drop (i + 1)) with
          | none => none
          | some k =>
            some (((times.getD (i + m + 1 + k) 0 - times.getD (i + m) 0 : Int) : Rat) / 60)) := by
      unfold first_failure_duration
      rw [hrep]
      show (match firstZero ((List.replicate m 1 ++ labels).drop (i + m + 1)) with
          | none => none
          | some k =>
            some (((times.getD (i + m + 1 + k) 0 - times.getD (i + m) 0 : Int) : Rat) / 60)) = _
      rw [hdrop]
    have hR : first_failure_duration labels (times.drop m) =
        (match firstZero (labels.drop (i + 1)) with
          | none => none
          | some k =>
            some ((((times.drop m).getD (i + 1 + k) 0 -
              (times.drop m).getD i 0 : Int) : Rat) / 60)) := by
      unfold first_failure_duration
      rw [hs]
    rw [hL, hR]
    cases hz : firstZero (labels.drop (i + 1)) with
    | none => rfl
    | some k =>
      show some (((times.getD (i + m + 1 + k) 0 - times.getD (i + m) 0 : Int) : Rat) / 60) =
        some ((((times.drop m).getD (i + 1 + k) 0 - (times.drop m).getD i 0 : Int) : Rat) / 60)
      rw [getD_drop_int m times (i + 1 + k), getD_drop_int m times i]
      have h1 : m + (i + 1 + k) = i + m + 1 + k := by omega
      have h2 : m + i = i + m := by omega
      rw [h1, h2]

/-- C10: a failure-label (or secondary-indicator) sequence that begins with
1 at the asset's very first sample contributes nothing from that initial
episode — the transition count over a leading run of 1-labels equals the
count over the remainder, and the first-failure duration is derived from
the remainder only (a 0-to-1 edge requires a preceding 0-valued sample). -/
theorem c10_leading_one_run :
    (∀ (m : Nat) (l : List Int),
        count_transitions (List.replicate m 1 ++ l) 0 1 = count_transitions l 0 1) ∧
    (∀ (m : Nat) (labels times : List Int), 1 ≤ m →
        first_failure_duration (List.replicate m 1 ++ labels) times =
          first_failure_duration labels (times.drop m)) :=
  ⟨count_replicate_one, fun m labels times hm => duration_replicate m hm labels times⟩

/-- C10 witness: the leading-one-run reduction evaluated at a concrete
sequence starting with label 1. -/
theorem c10_leading_one_run_witness :
    first_failure_duration (List.replicate 1 (1 : Int) ++ [0, 1, 0]) [0, 60, 120, 180] =
      first_failure_duration [0, 1, 0] (([0, 60, 120, 180] : List Int).drop 1) :=
  c10_leading_one_run.2 1 [0, 1, 0] [0, 60, 120, 180] (by decide)
